import Mathlib

/-!
Verification of the agent-orchestrator core of `forge` (file
`src/forge/agents/orchestrator.py`) against its natural-language
specification.

The Python source is shallowly embedded: pure functions become Lean
functions, the mutating methods become explicit state-passing functions
over an `OrchState` record, and the asyncio-based parallel coordinator
(`AgentOrchestrator.execute_parallel`, orchestration enabled) becomes a
small-step transition relation `Step` over a scheduler state `Sched`,
whose atomic steps are exactly the code segments between `await` points
of the source's coroutines.
-/

set_option maxRecDepth 4000

namespace Forge

/-- `AgentType` enum (orchestrator.py lines 22-30). -/
inductive AgentType where
  | leadArchitect
  | backendMaster
  | cliArtisan
  | platformBuilder
  | integrationSpecialist
  | qaSentinel
deriving DecidableEq, Repr

/-- `MessageType` enum (orchestrator.py lines 33-40). -/
inductive MessageType where
  | handoff
  | query
  | result
  | status
  | error
deriving DecidableEq, Repr

/-- A Python value appearing in a message `content` dict: either a string or
some non-string value (whose structure the orchestrator never inspects). -/
inductive PyVal where
  | str (s : String)
  | other
deriving DecidableEq, Repr

/-- `AgentMessage` dataclass (orchestrator.py lines 43-52); `content` is the
payload dict, modelled as an association list. -/
structure AgentMessage where
  from_agent : AgentType
  to_agent : AgentType
  message_type : MessageType
  content : List (String × PyVal)
  timestamp : String
  message_id : String
deriving DecidableEq, Repr

/-- A result dict (`dict[str, Any]` whose values are strings in every code
path the orchestrator itself constructs). -/
abbrev ResultDict := List (String × String)

/-- `Task` dataclass (orchestrator.py lines 55-82).  Field order follows the
source.  `subtasks` holds child tasks, so `Task` is a nested inductive. -/
inductive Task where
  | mk (id : String) (description : String) (type : String) (priority : String)
      (assigned_agent : Option AgentType) (status : String)
      (metadata : List (String × String)) (subtasks : List Task)
      (dependencies : List String) (messages : List AgentMessage)
      (started_at : Option String) (completed_at : Option String)
      (result : Option ResultDict) : Task

def Task.id : Task → String
  | .mk i _ _ _ _ _ _ _ _ _ _ _ _ => i

def Task.description : Task → String
  | .mk _ d _ _ _ _ _ _ _ _ _ _ _ => d

def Task.type : Task → String
  | .mk _ _ t _ _ _ _ _ _ _ _ _ _ => t

def Task.priority : Task → String
  | .mk _ _ _ p _ _ _ _ _ _ _ _ _ => p

def Task.assigned_agent : Task → Option AgentType
  | .mk _ _ _ _ a _ _ _ _ _ _ _ _ => a

def Task.status : Task → String
  | .mk _ _ _ _ _ s _ _ _ _ _ _ _ => s

def Task.metadata : Task → List (String × String)
  | .mk _ _ _ _ _ _ m _ _ _ _ _ _ => m

def Task.subtasks : Task → List Task
  | .mk _ _ _ _ _ _ _ s _ _ _ _ _ => s

def Task.dependencies : Task → List String
  | .mk _ _ _ _ _ _ _ _ d _ _ _ _ => d

def Task.messages : Task → List AgentMessage
  | .mk _ _ _ _ _ _ _ _ _ m _ _ _ => m

def Task.started_at : Task → Option String
  | .mk _ _ _ _ _ _ _ _ _ _ s _ _ => s

def Task.completed_at : Task → Option String
  | .mk _ _ _ _ _ _ _ _ _ _ _ c _ => c

def Task.result : Task → Option ResultDict
  | .mk _ _ _ _ _ _ _ _ _ _ _ _ r => r

/-- Assignment `task.status = s`. -/
def Task.setStatus : Task → String → Task
  | .mk a b c d e _ g h i j k l m, s => .mk a b c d e s g h i j k l m

/-- Assignment `task.assigned_agent = ag`. -/
def Task.setAgent : Task → Option AgentType → Task
  | .mk a b c d _ f g h i j k l m, e => .mk a b c d e f g h i j k l m

/-- Assignment `task.subtasks = subs`. -/
def Task.setSubtasks : Task → List Task → Task
  | .mk a b c d e f g _ i j k l m, h => .mk a b c d e f g h i j k l m

/-- Assignment `task.started_at = t`. -/
def Task.setStartedAt : Task → Option String → Task
  | .mk a b c d e f g h i j _ l m, k => .mk a b c d e f g h i j k l m

/-- Assignment `task.completed_at = t`. -/
def Task.setCompletedAt : Task → Option String → Task
  | .mk a b c d e f g h i j k _ m, l => .mk a b c d e f g h i j k l m

/-- Assignment `task.result = r`. -/
def Task.setResult : Task → Option ResultDict → Task
  | .mk a b c d e f g h i j k l _, m => .mk a b c d e f g h i j k l m

/-- `task.messages.append(msg)`. -/
def Task.appendMessage : Task → AgentMessage → Task
  | .mk a b c d e f g h i j k l m, msg => .mk a b c d e f g h i (j ++ [msg]) k l m

/-- A task with only the constructor arguments of `Task(...)` that
`create_task`-style call sites pass, all other fields defaulted as in the
dataclass. -/
def mkTask (id description type priority : String) : Task :=
  .mk id description type priority none "pending" [] [] [] [] none none none

@[simp] theorem Task.setStatus_id (t : Task) (s : String) : (t.setStatus s).id = t.id := by
  cases t; rfl

@[simp] theorem Task.setStatus_dependencies (t : Task) (s : String) :
    (t.setStatus s).dependencies = t.dependencies := by
  cases t; rfl

@[simp] theorem Task.setStatus_status (t : Task) (s : String) : (t.setStatus s).status = s := by
  cases t; rfl

@[simp] theorem Task.setStartedAt_id (t : Task) (s : Option String) :
    (t.setStartedAt s).id = t.id := by
  cases t; rfl

@[simp] theorem Task.setStartedAt_dependencies (t : Task) (s : Option String) :
    (t.setStartedAt s).dependencies = t.dependencies := by
  cases t; rfl

@[simp] theorem Task.setStartedAt_status (t : Task) (s : Option String) :
    (t.setStartedAt s).status = t.status := by
  cases t; rfl

@[simp] theorem Task.setCompletedAt_id (t : Task) (s : Option String) :
    (t.setCompletedAt s).id = t.id := by
  cases t; rfl

@[simp] theorem Task.setCompletedAt_dependencies (t : Task) (s : Option String) :
    (t.setCompletedAt s).dependencies = t.dependencies := by
  cases t; rfl

@[simp] theorem Task.setCompletedAt_status (t : Task) (s : Option String) :
    (t.setCompletedAt s).status = t.status := by
  cases t; rfl

@[simp] theorem Task.setResult_id (t : Task) (r : Option ResultDict) :
    (t.setResult r).id = t.id := by
  cases t; rfl

@[simp] theorem Task.setResult_dependencies (t : Task) (r : Option ResultDict) :
    (t.setResult r).dependencies = t.dependencies := by
  cases t; rfl

@[simp] theorem Task.setResult_status (t : Task) (r : Option ResultDict) :
    (t.setResult r).status = t.status := by
  cases t; rfl

@[simp] theorem Task.setResult_result (t : Task) (r : Option ResultDict) :
    (t.setResult r).result = r := by
  cases t; rfl

@[simp] theorem Task.setResult_started_at (t : Task) (r : Option ResultDict) :
    (t.setResult r).started_at = t.started_at := by
  cases t; rfl

@[simp] theorem Task.setResult_completed_at (t : Task) (r : Option ResultDict) :
    (t.setResult r).completed_at = t.completed_at := by
  cases t; rfl

@[simp] theorem Task.setStatus_started_at (t : Task) (s : String) :
    (t.setStatus s).started_at = t.started_at := by
  cases t; rfl

@[simp] theorem Task.setStatus_completed_at (t : Task) (s : String) :
    (t.setStatus s).completed_at = t.completed_at := by
  cases t; rfl

@[simp] theorem Task.setStartedAt_started_at (t : Task) (s : Option String) :
    (t.setStartedAt s).started_at = s := by
  cases t; rfl

@[simp] theorem Task.setStartedAt_completed_at (t : Task) (s : Option String) :
    (t.setStartedAt s).completed_at = t.completed_at := by
  cases t; rfl

@[simp] theorem Task.setCompletedAt_completed_at (t : Task) (s : Option String) :
    (t.setCompletedAt s).completed_at = s := by
  cases t; rfl

@[simp] theorem Task.setSubtasks_subtasks (t : Task) (l : List Task) :
    (t.setSubtasks l).subtasks = l := by
  cases t; rfl

@[simp] theorem Task.setAgent_assigned_agent (t : Task) (a : Option AgentType) :
    (t.setAgent a).assigned_agent = a := by
  cases t; rfl

@[simp] theorem Task.setAgent_id (t : Task) (a : Option AgentType) :
    (t.setAgent a).id = t.id := by
  cases t; rfl

@[simp] theorem Task.setAgent_messages (t : Task) (a : Option AgentType) :
    (t.setAgent a).messages = t.messages := by
  cases t; rfl

@[simp] theorem Task.appendMessage_messages (t : Task) (m : AgentMessage) :
    (t.appendMessage m).messages = t.messages ++ [m] := by
  cases t; rfl

@[simp] theorem Task.appendMessage_assigned_agent (t : Task) (m : AgentMessage) :
    (t.appendMessage m).assigned_agent = t.assigned_agent := by
  cases t; rfl

/-- `Task.can_start` (orchestrator.py lines 73-82):
`all(dep_id in completed_tasks for dep_id in self.dependencies)`. -/
def Task.can_start (t : Task) (completed_tasks : List String) : Bool :=
  t.dependencies.all (fun dep_id => completed_tasks.contains dep_id)

theorem can_start_iff (t : Task) (c : List String) :
    t.can_start c = true ↔ ∀ d ∈ t.dependencies, d ∈ c := by
  simp [Task.can_start, List.all_eq_true, List.elem_iff]

/-! ### Capability routing (`AgentOrchestrator.assign_agent`, lines 211-273) -/

/-- ASCII lower-casing of one character, as `str.lower()` acts on the ASCII
descriptions and types the orchestrator handles. -/
def charLower (c : Char) : Char :=
  if 65 ≤ c.toNat ∧ c.toNat ≤ 90 then Char.ofNat (c.toNat + 32) else c

/-- `s.lower()` on a string. -/
def strLower (s : String) : String :=
  ⟨s.data.map charLower⟩

/-- `needle` occurs starting at the head of `hay`. -/
def listStartsWith : List Char → List Char → Bool
  | _, [] => true
  | [], _ :: _ => false
  | h :: t, n :: m => h = n && listStartsWith t m

/-- `needle` occurs somewhere in `hay`. -/
def listHasSubstr : List Char → List Char → Bool
  | [], n => n.isEmpty
  | h :: t, n => listStartsWith (h :: t) n || listHasSubstr t n

/-- Python's `needle in hay` on strings. -/
def strContains (hay needle : String) : Bool :=
  listHasSubstr hay.data needle.data

/-- Python's `any(keyword in d for keyword in kws)`. -/
def anyKeyword (d : String) (kws : List String) : Bool :=
  kws.any (fun kw => strContains d kw)

/-- `AgentOrchestrator.assign_agent` (orchestrator.py lines 211-273),
translated clause by clause from the if-cascade of the source. -/
def assign_agent (task : Task) : AgentType :=
  let description_lower := strLower task.description
  let task_type_lower := strLower task.type
  if anyKeyword description_lower ["architect", "design", "pattern", "structure"] then
    .leadArchitect
  else if anyKeyword description_lower ["api", "endpoint", "database", "backend", "repository"] then
    .backendMaster
  else if anyKeyword description_lower ["cli", "command", "terminal"] then
    .cliArtisan
  else if anyKeyword description_lower
      ["deploy", "docker", "kubernetes", "cicd", "infrastructure"] then
    .platformBuilder
  else if anyKeyword description_lower ["integration", "webhook", "mcp", "external"] then
    .integrationSpecialist
  else if anyKeyword description_lower ["test", "qa", "quality", "review"] then
    .qaSentinel
  else if task_type_lower = "feature" then
    .backendMaster
  else if task_type_lower = "bugfix" ∨ task_type_lower = "refactor" then
    .qaSentinel
  else
    .leadArchitect

/-- An ordered keyword-rule table, applied first-match-wins, with the `type`
fallback; this is the routing policy shape described by the spec (§4.1). -/
def routeByRules (rules : List (List String × AgentType)) (task : Task) : AgentType :=
  match (rules.find? (fun r => anyKeyword (strLower task.description) r.1)).map Prod.snd with
  | some a => a
  | none =>
    if strLower task.type = "feature" then .backendMaster
    else if strLower task.type = "bugfix" ∨ strLower task.type = "refactor" then .qaSentinel
    else .leadArchitect

/-- The rule table exactly as the spec's words enumerate it (§4.1:
"architecture/design/pattern/structure → architect pool; ..."). -/
def specRules : List (List String × AgentType) :=
  [ (["architecture", "design", "pattern", "structure"], .leadArchitect),
    (["api", "endpoint", "database", "backend", "repository"], .backendMaster),
    (["cli", "command", "terminal"], .cliArtisan),
    (["deploy", "docker", "kubernetes", "cicd", "infrastructure"], .platformBuilder),
    (["integration", "webhook", "mcp", "external"], .integrationSpecialist),
    (["test", "qa", "quality", "review"], .qaSentinel) ]

/-- The rule table with the first rule's keyword corrected to the source's
`"architect"` (the source matches the substring `architect`, not the full
word `architecture`). -/
def sourceRules : List (List String × AgentType) :=
  [ (["architect", "design", "pattern", "structure"], .leadArchitect),
    (["api", "endpoint", "database", "backend", "repository"], .backendMaster),
    (["cli", "command", "terminal"], .cliArtisan),
    (["deploy", "docker", "kubernetes", "cicd", "infrastructure"], .platformBuilder),
    (["integration", "webhook", "mcp", "external"], .integrationSpecialist),
    (["test", "qa", "quality", "review"], .qaSentinel) ]

/-! ### Single-task execution (`AgentOrchestrator.execute_task_async`, lines 383-429) -/

/-- Behaviour of the (opaque, caller-supplied) handler of one task: either it
returns a result dict, or it raises an exception with the given message.  The
default no-callback path of the source behaves like
`ok [("status", "completed"), ("message", "Task completed")]`. -/
inductive HandlerOutcome where
  | ok (r : ResultDict)
  | raise (msg : String)
deriving DecidableEq, Repr

/-- The result dict built by the default (no registered callback) branch of
`execute_task_async` (lines 410-411). -/
def defaultResult : ResultDict :=
  [("status", "completed"), ("message", "Task completed")]

/-- `AgentOrchestrator.execute_task_async` (lines 383-429) as a function of
the task, the handler's behaviour, the two wall-clock readings taken at entry
and at success, and the orchestrator's `completed_tasks` set.  It returns the
mutated task, the new `completed_tasks` set, and either the returned result
dict (`Except.ok`) or the exception that the `except` clause re-`raise`s
(`Except.error`). -/
def execute_task_async (task : Task) (outcome : HandlerOutcome)
    (now_entry now_done : String) (completed_tasks : List String) :
    Task × List String × Except String ResultDict :=
  let started := (task.setStatus "in_progress").setStartedAt (some now_entry)
  match outcome with
  | .ok result =>
    let finished := ((started.setStatus "completed").setCompletedAt (some now_done)).setResult
      (some result)
    (finished, task.id :: completed_tasks, .ok result)
  | .raise msg =>
    let failed := (started.setStatus "failed").setResult (some [("error", msg)])
    (failed, completed_tasks, .error msg)

/-- The exception-to-result conversion of `execute_parallel` (lines 468-474):
a normally returned dict passes through, an exception `e` becomes
`{"error": str(e), "status": "failed"}`. -/
def gatherConvert : Except String ResultDict → ResultDict
  | .ok r => r
  | .error msg => [("error", msg), ("status", "failed")]

/-- Python truthiness of an `Optional[str]`: `None` and `""` are falsy. -/
def optFalsy : Option String → Bool
  | none => true
  | some s => s.isEmpty

/-- `AgentOrchestrator._calculate_duration` (lines 598-614).  The subtraction
of the two parsed ISO timestamps is abstracted by `tsDiff`, since every
property verified here depends only on which branch is taken. -/
def calculate_duration (tsDiff : String → String → Int) (task : Task) : Option Int :=
  if optFalsy task.started_at || optFalsy task.completed_at then none
  else
    match task.started_at, task.completed_at with
    | some s, some e => some (tsDiff s e)
    | _, _ => none

/-! ### The orchestrator's mutable state and its dict-backed operations -/

/-- Python dict lookup `d.get(k)` over an association-list model of
`dict[str, Task]`. -/
def alookup : List (String × Task) → String → Option Task
  | [], _ => none
  | (k', v) :: rest, k => if k' = k then some v else alookup rest k

/-- Python dict assignment `d[k] = v` (replaces an existing binding, else
appends, preserving insertion order as CPython dicts do). -/
def aset : List (String × Task) → String → Task → List (String × Task)
  | [], k, v => [(k, v)]
  | (k', v') :: rest, k, v =>
    if k' = k then (k, v) :: rest else (k', v') :: aset rest k v

/-- The orchestrator state touched by the claims: `self.active_tasks` and
`self.completed_tasks` (orchestrator.py lines 101-102). -/
structure OrchState where
  active_tasks : List (String × Task)
  completed_tasks : List String

/-- `AgentOrchestrator.update_task_status` (lines 350-364): look the task up
in the active set; if present, assign the new status unconditionally and
return the task, else return `None`. -/
def update_task_status (st : OrchState) (task_id status : String) :
    OrchState × Option Task :=
  match alookup st.active_tasks task_id with
  | some task =>
    let task := task.setStatus status
    ({ st with active_tasks := aset st.active_tasks task_id task }, some task)
  | none => (st, none)

/-- `AgentOrchestrator._handle_handoff` (lines 546-562).  The `Bool` records
whether the `logger.warning` diagnostic for an invalid `task_id` fired; the
function is total, so message handling never raises.  A payload value that is
a non-string is rejected by `isinstance`, and a missing key defaults to `""`,
which (like any other falsy value) is rejected by `if not task_id`. -/
def handle_handoff (st : OrchState) (message : AgentMessage) : OrchState × Bool :=
  let task_id := (message.content.lookup "task_id").getD (.str "")
  match task_id with
  | .other => (st, true)
  | .str s =>
    if s.isEmpty then (st, true)
    else
      match alookup st.active_tasks s with
      | some task =>
        let task := (task.setAgent (some message.to_agent)).appendMessage message
        ({ st with active_tasks := aset st.active_tasks s task }, false)
      | none => (st, false)

/-- The architecture subtask built by `decompose_task` (lines 655-663). -/
def archSubtask (task : Task) : Task :=
  .mk (task.id ++ "-arch") ("Design architecture for: " ++ task.description)
    "design" task.priority (some .leadArchitect) "pending"
    [("parent_task", task.id)] [] [] [] none none none

/-- The implementation subtask built by `decompose_task` (lines 664-672). -/
def implSubtask (task : Task) : Task :=
  .mk (task.id ++ "-impl") ("Implement: " ++ task.description)
    "implementation" task.priority (some .backendMaster) "pending"
    [("parent_task", task.id)] [] [task.id ++ "-arch"] [] none none none

/-- The testing subtask built by `decompose_task` (lines 673-681). -/
def testSubtask (task : Task) : Task :=
  .mk (task.id ++ "-test") ("Test: " ++ task.description)
    "testing" task.priority (some .qaSentinel) "pending"
    [("parent_task", task.id)] [] [task.id ++ "-impl"] [] none none none

/-- `AgentOrchestrator.decompose_task` (lines 639-688): for a `"feature"`
task build the arch/impl/test subtask chain, store it on the task, and insert
each subtask into the active set; for any other type produce no subtasks.
Returns the mutated parent, the subtask list, and the new state. -/
def decompose_task (st : OrchState) (task : Task) : Task × List Task × OrchState :=
  let subtasks : List Task :=
    if task.type = "feature" then [archSubtask task, implSubtask task, testSubtask task]
    else []
  let task := task.setSubtasks subtasks
  let st := subtasks.foldl (fun s sub => { s with active_tasks := aset s.active_tasks sub.id sub }) st
  (task, subtasks, st)

/-! ### Parallel coordinator (`AgentOrchestrator.execute_parallel`, enabled path, lines 450-476)

The enabled branch runs one coroutine `execute_with_semaphore(task)` per
batch task under `asyncio.Semaphore(max_parallel)`.  asyncio is cooperative:
a coroutine runs atomically between `await` points.  The suspension points of
the source are the semaphore acquire, each `asyncio.sleep(0.1)` of the
dependency poll loop, and the handler `await`; accordingly each coroutine is
modelled by a program counter with one transition per atomic segment:

* `acquire`  — the semaphore grants a slot (`async with semaphore`);
* `startRun` — a poll iteration finds `task.can_start(completed_tasks)`
  true and runs the head of `execute_task_async` up to the handler call
  (status := "in_progress", started_at := now);
* `finishOk`/`finishErr` — the handler returns/raises, the tail of
  `execute_task_async` runs, the slot is released and the coroutine's
  `gather` cell receives the value or the exception.

A poll iteration that finds `can_start` false changes no state and is
therefore not a transition. -/

/-- Program counter of one `execute_with_semaphore` coroutine. -/
inductive PC where
  | notStarted
  | waitingDeps
  | running
  | done
deriving DecidableEq, Repr

/-- One batch entry: its task record, the predetermined behaviour of its
handler, the coroutine's program counter, and the coroutine's result cell of
`asyncio.gather(..., return_exceptions=True)`. -/
structure BItem where
  task : Task
  outcome : HandlerOutcome
  pc : PC
  res : Option (Except String ResultDict)

/-- Scheduler state of one `execute_parallel` call: the batch entries, the
orchestrator's shared `completed_tasks` set, and `max_parallel`. -/
structure Sched where
  items : List BItem
  completed : List String
  maxParallel : Nat

/-- An item holds a semaphore slot from the grant of `acquire` until the slot
release at the end of `async with` (which happens when the handler finishes). -/
def holdsSlot (b : BItem) : Bool :=
  b.pc = PC.waitingDeps || b.pc = PC.running

/-- Number of semaphore slots currently held. -/
def slotsUsed (s : Sched) : Nat :=
  s.items.countP holdsSlot

/-- Number of tasks whose handler is currently executing (status
`"in_progress"`, the Running state of the spec). -/
def countRunning (s : Sched) : Nat :=
  s.items.countP (fun b => b.pc = PC.running)

/-- Successor state of an `acquire` step: coroutine `i` is granted a slot. -/
def afterAcquire (s : Sched) (i : Nat) (b : BItem) : Sched :=
  { s with items := s.items.set i { b with pc := PC.waitingDeps } }

/-- Successor state of a `startRun` step: the poll loop of coroutine `i` saw
its dependencies satisfied and the head of `execute_task_async` ran. -/
def afterStartRun (s : Sched) (i : Nat) (b : BItem) (t : String) : Sched :=
  let b' : BItem :=
    { b with pc := PC.running,
             task := (b.task.setStatus "in_progress").setStartedAt (some t) }
  { s with items := s.items.set i b' }

/-- Successor state of a `finishOk` step: the handler of coroutine `i`
returned `r`, the success tail of `execute_task_async` ran (adding the id to
`completed_tasks`), and the slot was released. -/
def afterFinishOk (s : Sched) (i : Nat) (b : BItem) (r : ResultDict) (t : String) : Sched :=
  let b' : BItem :=
    { b with pc := PC.done,
             task := ((b.task.setStatus "completed").setCompletedAt (some t)).setResult (some r),
             res := some (.ok r) }
  { s with items := s.items.set i b', completed := b.task.id :: s.completed }

/-- Successor state of a `finishErr` step: the handler of coroutine `i`
raised, the `except` clause ran (no id is added to `completed_tasks`), the
re-raised exception landed in the `gather` cell, and the slot was released. -/
def afterFinishErr (s : Sched) (i : Nat) (b : BItem) (msg : String) : Sched :=
  let b' : BItem :=
    { b with pc := PC.done,
             task := (b.task.setStatus "failed").setResult (some [("error", msg)]),
             res := some (.error msg) }
  { s with items := s.items.set i b' }

/-- One atomic step of the enabled-path coordinator (see the section
comment); `t` is the wall-clock reading of the segment. -/
inductive Step : Sched → Sched → Prop where
  | acquire (s : Sched) (i : Nat) (b : BItem)
      (hget : s.items.get? i = some b) (hpc : b.pc = PC.notStarted)
      (hsem : slotsUsed s < s.maxParallel) :
      Step s (afterAcquire s i b)
  | startRun (s : Sched) (i : Nat) (b : BItem) (t : String)
      (hget : s.items.get? i = some b) (hpc : b.pc = PC.waitingDeps)
      (hdeps : b.task.can_start s.completed = true) :
      Step s (afterStartRun s i b t)
  | finishOk (s : Sched) (i : Nat) (b : BItem) (r : ResultDict) (t : String)
      (hget : s.items.get? i = some b) (hpc : b.pc = PC.running)
      (hout : b.outcome = .ok r) :
      Step s (afterFinishOk s i b r t)
  | finishErr (s : Sched) (i : Nat) (b : BItem) (msg : String)
      (hget : s.items.get? i = some b) (hpc : b.pc = PC.running)
      (hout : b.outcome = .raise msg) :
      Step s (afterFinishErr s i b msg)

/-- Reachability: any interleaving the asyncio loop may produce. -/
def Reach : Sched → Sched → Prop :=
  Relation.ReflTransGen Step

/-- Initial scheduler state for a batch: every coroutine is created but not
yet granted a slot; `c0` is the content of the shared `completed_tasks` set
when `execute_parallel` is entered. -/
def mkInit (batch : List (Task × HandlerOutcome)) (c0 : List String) (n : Nat) : Sched :=
  { items := batch.map (fun p => { task := p.1, outcome := p.2, pc := PC.notStarted, res := none }),
    completed := c0,
    maxParallel := n }

/-- `execute_parallel` has returned: every coroutine of the `gather` is done. -/
def allDone (s : Sched) : Prop :=
  ∀ i b, s.items.get? i = some b → b.pc = PC.done

/-- The `final_results` list built at lines 467-474 from the `gather`
output. -/
def collect (s : Sched) : List ResultDict :=
  s.items.map (fun b => match b.res with
    | some e => gatherConvert e
    | none => [])

/-! ### Helper lemmas about `List.set` / `List.get?` / `List.countP` -/

theorem get?_set_self {α : Type} (l : List α) (i : Nat) (a b : α)
    (h : l.get? i = some b) : (l.set i a).get? i = some a := by
  induction l generalizing i with
  | nil => simp at h
  | cons x xs ih =>
    cases i with
    | zero => rfl
    | succ j => simpa using ih j (by simpa using h)

theorem get?_set_ne {α : Type} (l : List α) (i j : Nat) (a : α)
    (h : i ≠ j) : (l.set i a).get? j = l.get? j := by
  induction l generalizing i j with
  | nil => simp
  | cons x xs ih =>
    cases i with
    | zero => cases j with
      | zero => exact absurd rfl h
      | succ j' => rfl
    | succ i' => cases j with
      | zero => rfl
      | succ j' => simpa using ih i' j' (by omega)

theorem length_set_eq {α : Type} (l : List α) (i : Nat) (a : α) :
    (l.set i a).length = l.length := by
  simp

theorem countP_set_eq {α : Type} (p : α → Bool) (l : List α) (i : Nat) (a b : α)
    (h : l.get? i = some b) :
    (l.set i a).countP p + (if p b then 1 else 0)
      = l.countP p + (if p a then 1 else 0) := by
  induction l generalizing i with
  | nil => simp at h
  | cons x xs ih =>
    cases i with
    | zero =>
      simp only [List.get?] at h
      cases h
      simp only [List.set, List.countP_cons]
      omega
    | succ j =>
      simp only [List.get?] at h
      simp only [List.set, List.countP_cons]
      have := ih j h
      omega

theorem set_get?_eq_self {α : Type} (l : List α) (i : Nat) (a : α)
    (h : l.get? i = some a) : l.set i a = l := by
  induction l generalizing i with
  | nil => rfl
  | cons x xs ih =>
    cases i with
    | zero => simp only [List.get?] at h; cases h; rfl
    | succ j =>
      simp only [List.get?] at h
      simp [List.set, ih j h]

theorem map_set_eq {α β : Type} (f : α → β) (l : List α) (i : Nat) (a : α) :
    (l.set i a).map f = (l.map f).set i (f a) := by
  induction l generalizing i with
  | nil => rfl
  | cons x xs ih =>
    cases i with
    | zero => rfl
    | succ j => simp [List.set, ih j]

theorem map_get? {α β : Type} (f : α → β) (l : List α) (i : Nat) :
    (l.map f).get? i = (l.get? i).map f := by
  induction l generalizing i with
  | nil => rfl
  | cons x xs ih =>
    cases i with
    | zero => rfl
    | succ j => exact ih j

theorem get?_some_lt {α : Type} (l : List α) (i : Nat) (a : α)
    (h : l.get? i = some a) : i < l.length := by
  induction l generalizing i with
  | nil => cases h
  | cons x xs ih =>
    cases i with
    | zero => simp
    | succ j => simpa using ih j h

/-! ### Invariants of the coordinator -/

theorem reach_invariant {P : Sched → Prop} {s0 s : Sched} (h0 : P s0)
    (hstep : ∀ s s', P s → Step s s' → P s') (h : Reach s0 s) : P s := by
  induction h with
  | refl => exact h0
  | tail _ hbc ih => exact hstep _ _ ih hbc

theorem slotsUsed_init (batch : List (Task × HandlerOutcome)) (c0 : List String) (n : Nat) :
    slotsUsed (mkInit batch c0 n) = 0 := by
  simp only [slotsUsed, mkInit, List.countP_map]
  apply List.countP_eq_zero.mpr
  intro a _
  simp [Function.comp, holdsSlot]

theorem maxParallel_afterAcquire (s : Sched) (i : Nat) (b : BItem) :
    (afterAcquire s i b).maxParallel = s.maxParallel := rfl

theorem slots_invariant {batch : List (Task × HandlerOutcome)} {c0 : List String} {n : Nat}
    {s : Sched} (h : Reach (mkInit batch c0 n) s) :
    s.maxParallel = n ∧ slotsUsed s ≤ n := by
  refine reach_invariant (P := fun s => s.maxParallel = n ∧ slotsUsed s ≤ n)
    ⟨rfl, by simp [slotsUsed_init]⟩ ?_ h
  rintro s s' ⟨hmax, hle⟩ hstep
  cases hstep with
  | acquire i b hget hpc hsem =>
    refine ⟨hmax, ?_⟩
    have hcount := countP_set_eq holdsSlot s.items i { b with pc := PC.waitingDeps } b hget
    simp [holdsSlot, hpc] at hcount
    rw [hmax] at hsem
    simp only [slotsUsed, afterAcquire] at hsem hle ⊢
    omega
  | startRun i b t hget hpc hdeps =>
    refine ⟨hmax, ?_⟩
    have hcount := countP_set_eq holdsSlot s.items i
      { b with pc := PC.running,
               task := (b.task.setStatus "in_progress").setStartedAt (some t) } b hget
    simp [holdsSlot, hpc] at hcount
    simp only [slotsUsed, afterStartRun] at hle ⊢
    omega
  | finishOk i b r t hget hpc hout =>
    refine ⟨hmax, ?_⟩
    have hcount := countP_set_eq holdsSlot s.items i
      { b with pc := PC.done,
               task := ((b.task.setStatus "completed").setCompletedAt (some t)).setResult (some r),
               res := some (.ok r) } b hget
    simp [holdsSlot, hpc] at hcount
    simp only [slotsUsed, afterFinishOk] at hle ⊢
    omega
  | finishErr i b msg hget hpc hout =>
    refine ⟨hmax, ?_⟩
    have hcount := countP_set_eq holdsSlot s.items i
      { b with pc := PC.done,
               task := (b.task.setStatus "failed").setResult (some [("error", msg)]),
               res := some (.error msg) } b hget
    simp [holdsSlot, hpc] at hcount
    simp only [slotsUsed, afterFinishErr] at hle ⊢
    omega

theorem countRunning_le_slotsUsed (s : Sched) : countRunning s ≤ slotsUsed s := by
  apply List.countP_mono_left
  intro b _ hb
  simp only [decide_eq_true_eq] at hb
  simp [holdsSlot, hb]

/-- A coroutine stops holding its semaphore slot only via the transition in
which its handler finishes: if a step takes item `i` from slot-holding to
not slot-holding, then that item was `running` before and is `done` after. -/
theorem slot_release_only_on_finish (s s' : Sched) (i : Nat) (b b' : BItem)
    (hstep : Step s s') (hb : s.items.get? i = some b) (hb' : s'.items.get? i = some b')
    (hheld : holdsSlot b = true) (hrel : holdsSlot b' = false) :
    b.pc = PC.running ∧ b'.pc = PC.done := by
  cases hstep with
  | acquire j c hget hpc hsem =>
    by_cases hij : j = i
    · subst hij
      rw [hget] at hb; cases hb
      simp [holdsSlot, hpc] at hheld
    · rw [afterAcquire] at hb'
      simp only at hb'
      rw [get?_set_ne _ _ _ _ hij, hb] at hb'
      cases hb'
      rw [hheld] at hrel; cases hrel
  | startRun j c t hget hpc hdeps =>
    by_cases hij : j = i
    · subst hij
      rw [afterStartRun] at hb'
      simp only at hb'
      rw [get?_set_self _ _ _ c hget] at hb'
      cases hb'
      simp [holdsSlot] at hrel
    · rw [afterStartRun] at hb'
      simp only at hb'
      rw [get?_set_ne _ _ _ _ hij, hb] at hb'
      cases hb'
      rw [hheld] at hrel; cases hrel
  | finishOk j c r t hget hpc hout =>
    by_cases hij : j = i
    · subst hij
      rw [hget] at hb; cases hb
      rw [afterFinishOk] at hb'
      simp only at hb'
      rw [get?_set_self _ _ _ b hget] at hb'
      cases hb'
      exact ⟨hpc, rfl⟩
    · rw [afterFinishOk] at hb'
      simp only at hb'
      rw [get?_set_ne _ _ _ _ hij, hb] at hb'
      cases hb'
      rw [hheld] at hrel; cases hrel
  | finishErr j c msg hget hpc hout =>
    by_cases hij : j = i
    · subst hij
      rw [hget] at hb; cases hb
      rw [afterFinishErr] at hb'
      simp only at hb'
      rw [get?_set_self _ _ _ b hget] at hb'
      cases hb'
      exact ⟨hpc, rfl⟩
    · rw [afterFinishErr] at hb'
      simp only at hb'
      rw [get?_set_ne _ _ _ _ hij, hb] at hb'
      cases hb'
      rw [hheld] at hrel; cases hrel

/-- C2: for every batch executed with orchestration enabled and configured
`max_parallel = n`, in every state reachable during `execute_parallel` at
most `n` tasks are simultaneously in the Running state, and a concurrency
slot is given up only by the transition in which the holder's handler
finishes (Running → Done), never earlier. -/
theorem c2_running_bounded_by_max_parallel
    (batch : List (Task × HandlerOutcome)) (c0 : List String) (n : Nat) (s : Sched)
    (h : Reach (mkInit batch c0 n) s) :
    countRunning s ≤ n ∧
    (∀ s' i b b', Step s s' → s.items.get? i = some b → s'.items.get? i = some b' →
      holdsSlot b = true → holdsSlot b' = false → b.pc = PC.running ∧ b'.pc = PC.done) := by
  refine ⟨le_trans (countRunning_le_slotsUsed s) (slots_invariant h).2, ?_⟩
  intro s' i b b' hstep hb hb' hheld hrel
  exact slot_release_only_on_finish s s' i b b' hstep hb hb' hheld hrel

/-- Witness for C2 at a concrete input: a singleton batch under the default
`max_parallel = 3`, at the initial state of the coordinator. -/
theorem c2_running_bounded_witness :
    countRunning (mkInit [(mkTask "a" "build an api" "feature" "medium", .ok defaultResult)]
      [] 3) ≤ 3 ∧
    (∀ s' i b b',
      Step (mkInit [(mkTask "a" "build an api" "feature" "medium", .ok defaultResult)] [] 3) s' →
      (mkInit [(mkTask "a" "build an api" "feature" "medium", .ok defaultResult)]
        [] 3).items.get? i = some b →
      s'.items.get? i = some b' →
      holdsSlot b = true → holdsSlot b' = false → b.pc = PC.running ∧ b'.pc = PC.done) :=
  c2_running_bounded_by_max_parallel
    [(mkTask "a" "build an api" "feature" "medium", .ok defaultResult)] [] 3 _
    Relation.ReflTransGen.refl

/-- C1: with orchestration enabled, (a) a task is Running or finished only if
every id in its dependency list is in the shared `completed_tasks` set, and
(b) an id is in that set only if it was there before the batch started or its
task finished with status `"completed"` — a failed task never satisfies its
dependents. -/
theorem c1_dependency_gate
    (batch : List (Task × HandlerOutcome)) (c0 : List String) (n : Nat) (s : Sched)
    (h : Reach (mkInit batch c0 n) s) :
    (∀ i b, s.items.get? i = some b → (b.pc = PC.running ∨ b.pc = PC.done) →
      ∀ d ∈ b.task.dependencies, d ∈ s.completed) ∧
    (∀ x ∈ s.completed, x ∈ c0 ∨ ∃ i b, s.items.get? i = some b ∧ b.pc = PC.done ∧
      b.task.id = x ∧ b.task.status = "completed") := by
  refine reach_invariant (P := fun s =>
    (∀ i b, s.items.get? i = some b → (b.pc = PC.running ∨ b.pc = PC.done) →
      ∀ d ∈ b.task.dependencies, d ∈ s.completed) ∧
    (∀ x ∈ s.completed, x ∈ c0 ∨ ∃ i b, s.items.get? i = some b ∧ b.pc = PC.done ∧
      b.task.id = x ∧ b.task.status = "completed")) ⟨?_, ?_⟩ ?_ h
  · intro i b hget hpc
    simp only [mkInit, map_get?] at hget
    cases hb : batch.get? i with
    | none => rw [hb] at hget; cases hget
    | some p =>
      rw [hb] at hget
      cases hget
      rcases hpc with hpc | hpc <;> cases hpc
  · intro x hx
    exact Or.inl hx
  · rintro s s' ⟨ha, hb0⟩ hstep
    cases hstep with
    | acquire j c hget hpc hsem =>
      constructor
      · intro i b hgi hpci
        by_cases hij : j = i
        · subst hij
          rw [afterAcquire] at hgi
          simp only at hgi
          rw [get?_set_self _ _ _ c hget] at hgi
          cases hgi
          rcases hpci with hpci | hpci <;> cases hpci
        · rw [afterAcquire] at hgi
          simp only at hgi
          rw [get?_set_ne _ _ _ _ hij] at hgi
          exact ha i b hgi hpci
      · intro x hx
        rcases hb0 x hx with hc0 | ⟨i, b, hgi, hdone, hid, hst⟩
        · exact Or.inl hc0
        · refine Or.inr ⟨i, b, ?_, hdone, hid, hst⟩
          have hij : j ≠ i := by
            intro hji
            subst hji
            rw [hget] at hgi
            cases hgi
            rw [hpc] at hdone
            cases hdone
          rw [afterAcquire]
          simp only
          rw [get?_set_ne _ _ _ _ hij]
          exact hgi
    | startRun j c t hget hpc hdeps =>
      constructor
      · intro i b hgi hpci
        by_cases hij : j = i
        · subst hij
          rw [afterStartRun] at hgi
          simp only at hgi
          rw [get?_set_self _ _ _ c hget] at hgi
          cases hgi
          intro d hd
          simp only [Task.setStartedAt_dependencies, Task.setStatus_dependencies] at hd
          exact (can_start_iff c.task s.completed).mp hdeps d hd
        · rw [afterStartRun] at hgi
          simp only at hgi
          rw [get?_set_ne _ _ _ _ hij] at hgi
          exact ha i b hgi hpci
      · intro x hx
        rcases hb0 x hx with hc0 | ⟨i, b, hgi, hdone, hid, hst⟩
        · exact Or.inl hc0
        · refine Or.inr ⟨i, b, ?_, hdone, hid, hst⟩
          have hij : j ≠ i := by
            intro hji
            subst hji
            rw [hget] at hgi
            cases hgi
            rw [hpc] at hdone
            cases hdone
          rw [afterStartRun]
          simp only
          rw [get?_set_ne _ _ _ _ hij]
          exact hgi
    | finishOk j c r t hget hpc hout =>
      constructor
      · intro i b hgi hpci
        intro d hd
        by_cases hij : j = i
        · subst hij
          rw [afterFinishOk] at hgi
          simp only at hgi
          rw [get?_set_self _ _ _ c hget] at hgi
          cases hgi
          simp only [Task.setResult_dependencies, Task.setCompletedAt_dependencies,
            Task.setStatus_dependencies] at hd
          exact List.mem_cons_of_mem _ (ha j c hget (Or.inl hpc) d hd)
        · rw [afterFinishOk] at hgi
          simp only at hgi
          rw [get?_set_ne _ _ _ _ hij] at hgi
          exact List.mem_cons_of_mem _ (ha i b hgi hpci d hd)
      · intro x hx
        rcases List.mem_cons.mp hx with hx | hx
        · subst hx
          refine Or.inr ⟨j,
            { c with pc := PC.done,
                     task := ((c.task.setStatus "completed").setCompletedAt (some t)).setResult
                       (some r),
                     res := some (.ok r) }, ?_, rfl, by simp, by simp⟩
          rw [afterFinishOk]
          simp only
          exact get?_set_self _ _ _ c hget
        · rcases hb0 x hx with hc0 | ⟨i, b, hgi, hdone, hid, hst⟩
          · exact Or.inl hc0
          · refine Or.inr ⟨i, b, ?_, hdone, hid, hst⟩
            have hij : j ≠ i := by
              intro hji
              subst hji
              rw [hget] at hgi
              cases hgi
              rw [hpc] at hdone
              cases hdone
            rw [afterFinishOk]
            simp only
            rw [get?_set_ne _ _ _ _ hij]
            exact hgi
    | finishErr j c msg hget hpc hout =>
      constructor
      · intro i b hgi hpci
        by_cases hij : j = i
        · subst hij
          rw [afterFinishErr] at hgi
          simp only at hgi
          rw [get?_set_self _ _ _ c hget] at hgi
          cases hgi
          intro d hd
          simp only [Task.setResult_dependencies, Task.setStatus_dependencies] at hd
          exact ha j c hget (Or.inl hpc) d hd
        · rw [afterFinishErr] at hgi
          simp only at hgi
          rw [get?_set_ne _ _ _ _ hij] at hgi
          exact ha i b hgi hpci
      · intro x hx
        rcases hb0 x hx with hc0 | ⟨i, b, hgi, hdone, hid, hst⟩
        · exact Or.inl hc0
        · refine Or.inr ⟨i, b, ?_, hdone, hid, hst⟩
          have hij : j ≠ i := by
            intro hji
            subst hji
            rw [hget] at hgi
            cases hgi
            rw [hpc] at hdone
            cases hdone
          rw [afterFinishErr]
          simp only
          rw [get?_set_ne _ _ _ _ hij]
          exact hgi

/-- Demonstration task for the C1 witness: one dependency `"x"` already in
the shared completed set when the batch starts. -/
def c1demoTask : Task :=
  .mk "a" "build an api" "feature" "medium" none "pending" [] [] ["x"] [] none none none

def c1demoBatch : List (Task × HandlerOutcome) := [(c1demoTask, .ok defaultResult)]

def c1demoItem0 : BItem :=
  { task := c1demoTask, outcome := .ok defaultResult, pc := PC.notStarted, res := none }

def c1demoItem1 : BItem := { c1demoItem0 with pc := PC.waitingDeps }

def c1demoItem2 : BItem :=
  { c1demoItem1 with pc := PC.running,
                     task := (c1demoTask.setStatus "in_progress").setStartedAt (some "t1") }

/-- The state after the only batch task acquires a slot, passes its
dependency gate, runs, and completes. -/
def c1demoFinal : Sched :=
  afterFinishOk (afterStartRun (afterAcquire (mkInit c1demoBatch ["x"] 3) 0 c1demoItem0)
    0 c1demoItem1 "t1") 0 c1demoItem2 defaultResult "t2"

/-- Witness for C1: a concrete three-step execution of a one-task batch whose
dependency was already satisfied, checked at its final state. -/
theorem c1_dependency_gate_witness :
    (∀ i b, c1demoFinal.items.get? i = some b → (b.pc = PC.running ∨ b.pc = PC.done) →
      ∀ d ∈ b.task.dependencies, d ∈ c1demoFinal.completed) ∧
    (∀ x ∈ c1demoFinal.completed, x ∈ ["x"] ∨ ∃ i b, c1demoFinal.items.get? i = some b ∧
      b.pc = PC.done ∧ b.task.id = x ∧ b.task.status = "completed") :=
  c1_dependency_gate c1demoBatch ["x"] 3 c1demoFinal
    (Relation.ReflTransGen.tail
      (Relation.ReflTransGen.tail
        (Relation.ReflTransGen.tail Relation.ReflTransGen.refl
          (Step.acquire _ 0 c1demoItem0 rfl rfl (by decide)))
        (Step.startRun _ 0 c1demoItem1 "t1" rfl rfl (by decide)))
      (Step.finishOk _ 0 c1demoItem2 defaultResult "t2" rfl rfl rfl))

/-! ### C4: dependents of a failed task block `execute_parallel` forever -/

/-- The fields of a batch item that no coordinator step ever changes: task
id, dependency list, and whether its handler raises. -/
def c4key (b : BItem) : String × List String × Bool :=
  (b.task.id, b.task.dependencies, match b.outcome with | .raise _ => true | .ok _ => false)

/-- Batch task `task-a`, whose handler raises. -/
def c4taskA : Task :=
  .mk "task-a" "build an api" "feature" "medium" none "pending" [] [] [] [] none none none

/-- Batch task `task-b`, which depends on `task-a`. -/
def c4taskB : Task :=
  .mk "task-b" "verify it" "feature" "medium" none "pending" [] [] ["task-a"] [] none none none

/-- The deadlocking batch: `task-a` fails, `task-b` depends on it. -/
def c4batch : List (Task × HandlerOutcome) :=
  [(c4taskA, .raise "boom"), (c4taskB, .ok defaultResult)]

def c4init : Sched := mkInit c4batch [] 3

/-- The initial batch item of `task-b` in `c4init`. -/
def c4itemB0 : BItem :=
  { task := c4taskB, outcome := .ok defaultResult, pc := PC.notStarted, res := none }

theorem c4key_afterStart (c : BItem) (t : String) :
    c4key { c with pc := PC.running,
                   task := (c.task.setStatus "in_progress").setStartedAt (some t) }
      = c4key c := by
  simp [c4key]

theorem c4key_afterErr (c : BItem) (msg : String) :
    c4key { c with pc := PC.done,
                   task := (c.task.setStatus "failed").setResult (some [("error", msg)]),
                   res := some (Except.error msg) }
      = c4key c := by
  simp [c4key]

theorem c4_deadlock_invariant (s : Sched) (h : Reach c4init s) :
    s.items.map c4key = [("task-a", ([] : List String), true), ("task-b", ["task-a"], false)] ∧
    "task-a" ∉ s.completed ∧
    (∀ b, s.items.get? 1 = some b → b.pc = PC.notStarted ∨ b.pc = PC.waitingDeps) := by
  refine reach_invariant (P := fun s =>
    s.items.map c4key = [("task-a", ([] : List String), true), ("task-b", ["task-a"], false)] ∧
    "task-a" ∉ s.completed ∧
    (∀ b, s.items.get? 1 = some b → b.pc = PC.notStarted ∨ b.pc = PC.waitingDeps))
    ?_ ?_ h
  · refine ⟨rfl, by simp [c4init, mkInit], ?_⟩
    intro b hb
    have hb' : some c4itemB0 = some b := hb
    cases Option.some.inj hb'
    exact Or.inl rfl
  · rintro s s' ⟨hmap, hna, hpc1⟩ hstep
    have hkeyget : ∀ j c, s.items.get? j = some c →
        (s.items.map c4key).get? j = some (c4key c) := by
      intro j c hj
      rw [map_get?, hj]
      rfl
    cases hstep with
    | acquire j c hget hpc hsem =>
      refine ⟨?_, hna, ?_⟩
      · rw [afterAcquire]
        simp only
        rw [map_set_eq]
        rw [show c4key { c with pc := PC.waitingDeps } = c4key c from rfl]
        rw [set_get?_eq_self _ _ _ (hkeyget j c hget), hmap]
      · intro b hb
        by_cases hj1 : j = 1
        · subst hj1
          rw [afterAcquire] at hb
          simp only at hb
          rw [get?_set_self _ _ _ c hget] at hb
          cases Option.some.inj hb
          exact Or.inr rfl
        · rw [afterAcquire] at hb
          simp only at hb
          rw [get?_set_ne _ _ _ _ hj1] at hb
          exact hpc1 b hb
    | startRun j c t hget hpc hdeps =>
      have hj1 : j ≠ 1 := by
        intro hj
        subst hj
        have hkey := hkeyget 1 c hget
        rw [hmap] at hkey
        have hkey' : c4key c = ("task-b", ["task-a"], false) := by
          have : some (("task-b", ["task-a"], false) :
              String × List String × Bool) = some (c4key c) := hkey
          exact (Option.some.inj this).symm
        have hdep : c.task.dependencies = ["task-a"] := congrArg (Prod.fst ∘ Prod.snd) hkey'
        have := (can_start_iff c.task s.completed).mp hdeps "task-a" (by rw [hdep]; simp)
        exact hna this
      refine ⟨?_, hna, ?_⟩
      · rw [afterStartRun]
        simp only
        rw [map_set_eq]
        rw [c4key_afterStart]
        rw [set_get?_eq_self _ _ _ (hkeyget j c hget), hmap]
      · intro b hb
        rw [afterStartRun] at hb
        simp only at hb
        rw [get?_set_ne _ _ _ _ hj1] at hb
        exact hpc1 b hb
    | finishOk j c r t hget hpc hout =>
      exfalso
      have hj1 : j ≠ 1 := by
        intro hj
        subst hj
        rcases hpc1 c hget with h | h <;> rw [hpc] at h <;> cases h
      have hlen : s.items.length = 2 := by
        have := congrArg List.length hmap
        simpa using this
      have hj0 : j = 0 := by
        have := get?_some_lt s.items j c hget
        omega
      subst hj0
      have hkey := hkeyget 0 c hget
      rw [hmap] at hkey
      have hkey' : c4key c = ("task-a", [], true) := by
        have : some (("task-a", ([] : List String), true) :
            String × List String × Bool) = some (c4key c) := hkey
        exact (Option.some.inj this).symm
      have : (match c.outcome with | .raise _ => true | .ok _ => false) = true :=
        congrArg (Prod.snd ∘ Prod.snd) hkey'
      rw [hout] at this
      cases this
    | finishErr j c msg hget hpc hout =>
      have hj1 : j ≠ 1 := by
        intro hj
        subst hj
        rcases hpc1 c hget with h | h <;> rw [hpc] at h <;> cases h
      refine ⟨?_, hna, ?_⟩
      · rw [afterFinishErr]
        simp only
        rw [map_set_eq]
        rw [c4key_afterErr]
        rw [set_get?_eq_self _ _ _ (hkeyget j c hget), hmap]
      · intro b hb
        rw [afterFinishErr] at hb
        simp only at hb
        rw [get?_set_ne _ _ _ _ hj1] at hb
        exact hpc1 b hb

/-- C4 counterexample: for the concrete two-task batch in which `task-a`'s
handler raises and `task-b` depends on `task-a`, no reachable state of
`execute_parallel` has every coroutine done — the `gather` can never return,
so the call blocks forever instead of surfacing the deadlocked dependent. -/
theorem c4_one_result_per_task_counterexample :
    ¬ ∃ s : Sched, Reach c4init s ∧ allDone s := by
  rintro ⟨s, hreach, hdone⟩
  obtain ⟨hmap, -, hpc1⟩ := c4_deadlock_invariant s hreach
  have hlen : s.items.length = 2 := by
    have := congrArg List.length hmap
    simpa using this
  have hget : s.items.get? 1 = some (s.items.get ⟨1, by omega⟩) :=
    List.get?_eq_get (by omega)
  have hd := hdone 1 _ hget
  rcases hpc1 _ hget with h | h <;> rw [hd] at h <;> cases h

/-- The value a coroutine's `gather` cell must hold once it is done. -/
def dueRes (o : HandlerOutcome) : Except String ResultDict :=
  match o with
  | .ok r => Except.ok r
  | .raise m => Except.error m

theorem res_invariant (batch : List (Task × HandlerOutcome)) (c0 : List String) (n : Nat)
    (s : Sched) (h : Reach (mkInit batch c0 n) s) :
    s.items.length = batch.length ∧
    (∀ i b, s.items.get? i = some b →
      (batch.get? i).map Prod.snd = some b.outcome ∧
      (b.pc = PC.done → b.res = some (dueRes b.outcome))) := by
  refine reach_invariant (P := fun s =>
    s.items.length = batch.length ∧
    (∀ i b, s.items.get? i = some b →
      (batch.get? i).map Prod.snd = some b.outcome ∧
      (b.pc = PC.done → b.res = some (dueRes b.outcome)))) ?_ ?_ h
  · refine ⟨by simp [mkInit], ?_⟩
    intro i b hb
    simp only [mkInit, map_get?] at hb
    cases hp : batch.get? i with
    | none => rw [hp] at hb; cases hb
    | some p =>
      rw [hp] at hb
      cases Option.some.inj hb
      exact ⟨rfl, fun hd => by cases hd⟩
  · rintro s s' ⟨hlen, hres⟩ hstep
    cases hstep with
    | acquire j c hget hpc hsem =>
      refine ⟨by simp [afterAcquire, hlen], ?_⟩
      intro i b hb
      rw [afterAcquire] at hb
      simp only at hb
      by_cases hij : j = i
      · subst hij
        rw [get?_set_self _ _ _ c hget] at hb
        cases Option.some.inj hb
        exact ⟨(hres j c hget).1, fun hd => by cases hd⟩
      · rw [get?_set_ne _ _ _ _ hij] at hb
        exact hres i b hb
    | startRun j c t hget hpc hdeps =>
      refine ⟨by simp [afterStartRun, hlen], ?_⟩
      intro i b hb
      rw [afterStartRun] at hb
      simp only at hb
      by_cases hij : j = i
      · subst hij
        rw [get?_set_self _ _ _ c hget] at hb
        cases Option.some.inj hb
        exact ⟨(hres j c hget).1, fun hd => by cases hd⟩
      · rw [get?_set_ne _ _ _ _ hij] at hb
        exact hres i b hb
    | finishOk j c r t hget hpc hout =>
      refine ⟨by simp [afterFinishOk, hlen], ?_⟩
      intro i b hb
      rw [afterFinishOk] at hb
      simp only at hb
      by_cases hij : j = i
      · subst hij
        rw [get?_set_self _ _ _ c hget] at hb
        cases Option.some.inj hb
        exact ⟨(hres j c hget).1, fun _ => by simp [hout, dueRes]⟩
      · rw [get?_set_ne _ _ _ _ hij] at hb
        exact hres i b hb
    | finishErr j c msg hget hpc hout =>
      refine ⟨by simp [afterFinishErr, hlen], ?_⟩
      intro i b hb
      rw [afterFinishErr] at hb
      simp only at hb
      by_cases hij : j = i
      · subst hij
        rw [get?_set_self _ _ _ c hget] at hb
        cases Option.some.inj hb
        exact ⟨(hres j c hget).1, fun _ => by simp [hout, dueRes]⟩
      · rw [get?_set_ne _ _ _ _ hij] at hb
        exact hres i b hb

/-- C4 amended: whenever `execute_parallel` (orchestration enabled) does
return — that is, whenever a state is reached in which every coroutine of the
`gather` is done — its `final_results` list has exactly one entry per input
task, each successful task's entry is its handler's result, and each failed
task's entry is the converted error dict, so an individual failure does not
abort the batch; however, when some task's dependency failed, such a state
need never be reachable — see the C4 counterexample — and the
call blocks forever instead of surfacing the deadlocked dependent.  -/
theorem c4_one_result_per_task_amended
    (batch : List (Task × HandlerOutcome)) (c0 : List String) (n : Nat) (s : Sched)
    (h : Reach (mkInit batch c0 n) s) (hdone : allDone s) :
    (collect s).length = batch.length ∧
    (∀ i p, batch.get? i = some p →
      (∀ r, p.2 = HandlerOutcome.ok r → (collect s).get? i = some r) ∧
      (∀ m, p.2 = HandlerOutcome.raise m →
        (collect s).get? i = some [("error", m), ("status", "failed")])) := by
  obtain ⟨hlen, hres⟩ := res_invariant batch c0 n s h
  have hclen : (collect s).length = batch.length := by
    simp [collect, hlen]
  refine ⟨hclen, ?_⟩
  intro i p hp
  have hi : i < s.items.length := by
    have := get?_some_lt batch i p hp
    omega
  have hb : s.items.get? i = some (s.items.get ⟨i, hi⟩) := List.get?_eq_get hi
  obtain ⟨hout, hr⟩ := hres i _ hb
  have hpcdone := hdone i _ hb
  have hres' := hr hpcdone
  rw [hp] at hout
  have houtp : (s.items.get ⟨i, hi⟩).outcome = p.2 := (Option.some.inj hout).symm
  have hcol : (collect s).get? i = some (gatherConvert (dueRes p.2)) := by
    simp only [collect, map_get?, hb, Option.map_some']
    simp only [List.get_eq_getElem] at hres' houtp
    simp [hres', houtp]
  constructor
  · intro r hrk
    rw [hcol, hrk]
    rfl
  · intro m hrk
    rw [hcol, hrk]
    rfl

/-- Batch item states for the C4 witness run: a single task whose handler
raises, driven from creation to completion. -/
def c4wItem0 : BItem :=
  { task := c4taskA, outcome := .raise "boom", pc := PC.notStarted, res := none }

def c4wItem1 : BItem := { c4wItem0 with pc := PC.waitingDeps }

def c4wItem2 : BItem :=
  { c4wItem1 with pc := PC.running,
                  task := (c4taskA.setStatus "in_progress").setStartedAt (some "t1") }

def c4wItem3 : BItem :=
  { c4wItem2 with pc := PC.done,
                  task := (c4wItem2.task.setStatus "failed").setResult (some [("error", "boom")]),
                  res := some (Except.error "boom") }

/-- Final state of the C4 witness run. -/
def c4wFinal : Sched :=
  afterFinishErr (afterStartRun (afterAcquire (mkInit [(c4taskA, .raise "boom")] [] 3)
    0 c4wItem0) 0 c4wItem1 "t1") 0 c4wItem2 "boom"

theorem c4wFinal_allDone : allDone c4wFinal := by
  intro i b hb
  cases i with
  | zero =>
    have hb' : some c4wItem3 = some b := hb
    cases Option.some.inj hb'
    rfl
  | succ j => exact Option.noConfusion hb

/-- Witness for the amended C4: the concrete one-task batch whose handler
raises, run to completion; the batch returns one entry, the converted error
dict. -/
theorem c4_one_result_per_task_amended_witness :
    (collect c4wFinal).length = 1 ∧
    (∀ i p, [(c4taskA, HandlerOutcome.raise "boom")].get? i = some p →
      (∀ r, p.2 = HandlerOutcome.ok r → (collect c4wFinal).get? i = some r) ∧
      (∀ m, p.2 = HandlerOutcome.raise m →
        (collect c4wFinal).get? i = some [("error", m), ("status", "failed")])) :=
  c4_one_result_per_task_amended [(c4taskA, .raise "boom")] [] 3 c4wFinal
    (Relation.ReflTransGen.tail
      (Relation.ReflTransGen.tail
        (Relation.ReflTransGen.tail Relation.ReflTransGen.refl
          (Step.acquire _ 0 c4wItem0 rfl rfl (by decide)))
        (Step.startRun _ 0 c4wItem1 "t1" rfl rfl (by decide)))
      (Step.finishErr _ 0 c4wItem2 "boom" rfl rfl rfl))
    c4wFinal_allDone

/-! ### C3 and C10: the handler-failure path of `execute_task_async` -/

/-- C3 counterexample: for the concrete task below whose handler raises
`"boom"`, `execute_task_async` does not return a result — the `except` clause
re-`raise`s (line 429), so the exception does propagate past the single-task
execute entry point, contrary to the claim that it never does. -/
theorem c3_handler_failure_counterexample :
    ¬ (∀ (task : Task) (msg te td : String) (comp : List String),
        ∃ r : ResultDict,
          (execute_task_async task (.raise msg) te td comp).2.2 = Except.ok r) := by
  intro h
  obtain ⟨r, hr⟩ := h (mkTask "t" "compute" "feature" "medium") "boom" "t1" "t2" []
  simp [execute_task_async] at hr

/-- C3 amended: when a task's handler raises, `execute_task_async` records
the Failed state on the task — status `"failed"`, result `{"error": msg}`
carrying the original message — and leaves the shared `completed_tasks` set
untouched, but it re-raises the exception instead of returning; the
exception is converted into the result dict
`{"error": msg, "status": "failed"}` only by the batch entry point
`execute_parallel` (lines 468-474), whose `gather(..., return_exceptions=True)`
keeps the coordinator usable for the remaining and subsequent calls. -/
theorem c3_handler_failure_amended (task : Task) (msg te td : String)
    (comp : List String) :
    (execute_task_async task (.raise msg) te td comp).1.status = "failed" ∧
    (execute_task_async task (.raise msg) te td comp).1.result = some [("error", msg)] ∧
    (execute_task_async task (.raise msg) te td comp).2.1 = comp ∧
    (execute_task_async task (.raise msg) te td comp).2.2 = Except.error msg ∧
    gatherConvert (execute_task_async task (.raise msg) te td comp).2.2 =
      [("error", msg), ("status", "failed")] := by
  refine ⟨?_, ?_, rfl, rfl, rfl⟩ <;> simp [execute_task_async]

/-- C10: on the failure path of `execute_task_async` (handler raised), for a
task not yet carrying a completion timestamp, the task ends with status
`"failed"`, the error descriptor as result, `started_at` stamped with the
entry time, `completed_at` still `None`, its id not added to the completed
set — and consequently `_calculate_duration` returns `None` for it, whatever
the timestamp arithmetic. -/
theorem c10_failed_task_no_duration (task : Task) (msg te td : String)
    (comp : List String) (tsDiff : String → String → Int)
    (hfresh : task.completed_at = none) :
    (execute_task_async task (.raise msg) te td comp).1.status = "failed" ∧
    (execute_task_async task (.raise msg) te td comp).1.result = some [("error", msg)] ∧
    (execute_task_async task (.raise msg) te td comp).1.started_at = some te ∧
    (execute_task_async task (.raise msg) te td comp).1.completed_at = none ∧
    (execute_task_async task (.raise msg) te td comp).2.1 = comp ∧
    calculate_duration tsDiff (execute_task_async task (.raise msg) te td comp).1 = none := by
  refine ⟨?_, ?_, ?_, ?_, rfl, ?_⟩ <;>
    simp [execute_task_async, calculate_duration, optFalsy, hfresh]

/-- Witness for C10 at a concrete fresh task whose handler raises. -/
theorem c10_failed_task_no_duration_witness :
    (execute_task_async (mkTask "w" "job" "feature" "high") (.raise "oops") "t1" "t2"
      ["z"]).1.status = "failed" ∧
    (execute_task_async (mkTask "w" "job" "feature" "high") (.raise "oops") "t1" "t2"
      ["z"]).1.result = some [("error", "oops")] ∧
    (execute_task_async (mkTask "w" "job" "feature" "high") (.raise "oops") "t1" "t2"
      ["z"]).1.started_at = some "t1" ∧
    (execute_task_async (mkTask "w" "job" "feature" "high") (.raise "oops") "t1" "t2"
      ["z"]).1.completed_at = none ∧
    (execute_task_async (mkTask "w" "job" "feature" "high") (.raise "oops") "t1" "t2"
      ["z"]).2.1 = ["z"] ∧
    calculate_duration (fun _ _ => 0)
      (execute_task_async (mkTask "w" "job" "feature" "high") (.raise "oops") "t1" "t2"
        ["z"]).1 = none :=
  c10_failed_task_no_duration (mkTask "w" "job" "feature" "high") "oops" "t1" "t2" ["z"]
    (fun _ _ => 0) rfl

/-! ### C7: the task state machine and `update_task_status` -/

/-- The states of the spec's task state machine (§4.3). -/
inductive SpecStatus where
  | pending
  | queued
  | running
  | completed
  | failed
  | cancelled
deriving DecidableEq, Repr

/-- Mapping of the orchestrator's status strings onto the spec's states (the
source uses `"in_progress"` for the Running state). -/
def toSpecStatus (s : String) : Option SpecStatus :=
  if s = "pending" then some .pending
  else if s = "queued" then some .queued
  else if s = "in_progress" then some .running
  else if s = "completed" then some .completed
  else if s = "failed" then some .failed
  else if s = "cancelled" then some .cancelled
  else none

/-- The transitions the spec's state machine allows:
Pending→Queued→Running→{Completed, Failed}, plus Queued→Cancelled; nothing
leaves a terminal state. -/
def machineStep : SpecStatus → SpecStatus → Bool
  | .pending, .queued => true
  | .queued, .running => true
  | .running, .completed => true
  | .running, .failed => true
  | .queued, .cancelled => true
  | _, _ => false

/-- The claim that every status change `update_task_status` performs on an
active task follows the machine. -/
def c7_claim : Prop :=
  ∀ (st : OrchState) (task_id status : String) (t t' : Task),
    alookup st.active_tasks task_id = some t →
    (update_task_status st task_id status).2 = some t' →
    t.status ≠ t'.status →
    ∃ a b, toSpecStatus t.status = some a ∧ toSpecStatus t'.status = some b ∧
      machineStep a b = true

/-- The active set holding one task `"t"` already in terminal status
`"completed"`. -/
def c7st0 : OrchState :=
  { active_tasks := [("t", (mkTask "t" "compute" "feature" "medium").setStatus "completed")],
    completed_tasks := [] }

/-- C7 counterexample: `update_task_status` assigns any requested status with
no validation; on a task whose status is the terminal `"completed"` it
produces the transition Completed→Pending, which the machine has no edge
for. -/
theorem c7_state_machine_counterexample : ¬ c7_claim := by
  intro h
  obtain ⟨a, b, ha, hb, hab⟩ := h c7st0 "t" "pending"
    ((mkTask "t" "compute" "feature" "medium").setStatus "completed")
    (((mkTask "t" "compute" "feature" "medium").setStatus "completed").setStatus "pending")
    (by simp [c7st0, alookup])
    (by simp [update_task_status, c7st0, alookup])
    (by simp)
  simp [toSpecStatus, mkTask] at ha hb
  rw [← ha, ← hb] at hab
  simp [machineStep] at hab

/-- C7 amended: `update_task_status` is an unvalidated setter — whenever the
id is active it installs exactly the requested status (any string, from any
prior status, including out of the terminal ones, as the counterexample
shows) and returns the updated task, and it returns `None` leaving the state
unchanged when the id is unknown; the machine-shaped transitions the
orchestrator itself performs are those of `execute_task_async`, which moves
a task to `"in_progress"` on entry and to `"completed"` on handler success
or `"failed"` on handler failure. -/
theorem c7_update_status_amended (st : OrchState) (task_id status : String) :
    (∀ t, alookup st.active_tasks task_id = some t →
      update_task_status st task_id status =
        ({ st with active_tasks := aset st.active_tasks task_id (t.setStatus status) },
          some (t.setStatus status))) ∧
    (alookup st.active_tasks task_id = none →
      update_task_status st task_id status = (st, none)) ∧
    (∀ (task : Task) (o : HandlerOutcome) (te td : String) (comp : List String),
      (∀ r, o = .ok r → (execute_task_async task o te td comp).1.status = "completed") ∧
      (∀ m, o = .raise m → (execute_task_async task o te td comp).1.status = "failed")) := by
  refine ⟨?_, ?_, ?_⟩
  · intro t ht
    simp [update_task_status, ht]
  · intro ht
    simp [update_task_status, ht]
  · intro task o te td comp
    constructor
    · rintro r rfl
      simp [execute_task_async]
    · rintro m rfl
      simp [execute_task_async]

/-- The completed task stored in `c7st0`. -/
def c7taskC : Task := (mkTask "t" "compute" "feature" "medium").setStatus "completed"

/-- Witness for the amended C7 at concrete inputs: a present id, an absent
id, and both handler outcomes. -/
theorem c7_update_status_amended_witness :
    update_task_status c7st0 "t" "queued" =
      ({ c7st0 with active_tasks := aset c7st0.active_tasks "t" (c7taskC.setStatus "queued") },
        some (c7taskC.setStatus "queued")) ∧
    update_task_status c7st0 "missing" "queued" = (c7st0, none) ∧
    (execute_task_async (mkTask "t" "compute" "feature" "medium") (.raise "boom") "t1" "t2"
      []).1.status = "failed" :=
  ⟨(c7_update_status_amended c7st0 "t" "queued").1 c7taskC (by simp [c7st0, c7taskC, alookup]),
   (c7_update_status_amended c7st0 "missing" "queued").2.1 (by simp [c7st0, alookup]),
   ((c7_update_status_amended c7st0 "t" "queued").2.2 (mkTask "t" "compute" "feature" "medium")
      (.raise "boom") "t1" "t2" []).2 "boom" rfl⟩

/-! ### C8: Handoff message handling -/

/-- The state after a successful handoff of active task `s` (body of the
`if task:` branch, lines 559-561). -/
def handoffApply (st : OrchState) (msg : AgentMessage) (s : String) (t : Task) : OrchState :=
  { st with
    active_tasks := aset st.active_tasks s ((t.setAgent (some msg.to_agent)).appendMessage msg) }

/-- The claim's reading of `_handle_handoff`: a hit reassigns and appends,
and every miss — id missing, not a string, or not in the active set — leaves
the state unchanged AND emits a diagnostic. -/
def c8_claim : Prop :=
  ∀ (st : OrchState) (msg : AgentMessage),
    (∀ s t, msg.content.lookup "task_id" = some (PyVal.str s) → s.isEmpty = false →
      alookup st.active_tasks s = some t →
      handle_handoff st msg = (handoffApply st msg s t, false)) ∧
    (∀ s, msg.content.lookup "task_id" = some (PyVal.str s) → s.isEmpty = false →
      alookup st.active_tasks s = none → handle_handoff st msg = (st, true)) ∧
    (msg.content.lookup "task_id" = none → handle_handoff st msg = (st, true)) ∧
    (msg.content.lookup "task_id" = some PyVal.other → handle_handoff st msg = (st, true))

/-- A handoff message whose payload carries the well-formed id `"zz"`. -/
def c8msg : AgentMessage :=
  { from_agent := .leadArchitect, to_agent := .backendMaster, message_type := .handoff,
    content := [("task_id", .str "zz")], timestamp := "ts", message_id := "m1" }

/-- C8 counterexample: for a Handoff carrying the well-formed id `"zz"` that
is not in the (empty) active set, `_handle_handoff` leaves the state
unchanged but emits no diagnostic — `if task:` simply falls through with no
`else` branch (lines 559-562) — refuting the claim that every miss is
diagnosed. -/
theorem c8_handoff_counterexample : ¬ c8_claim := by
  intro h
  have hmiss := (h { active_tasks := [], completed_tasks := [] } c8msg).2.1 "zz"
    rfl rfl rfl
  have hsnd : (handle_handoff { active_tasks := [], completed_tasks := [] } c8msg).2 = true :=
    congrArg Prod.snd hmiss
  have hrfl : (handle_handoff { active_tasks := [], completed_tasks := [] } c8msg).2 = false :=
    rfl
  rw [hsnd] at hrfl
  cases hrfl

/-- C8 amended: `_handle_handoff` is total (message handling never raises)
and behaves as follows: a payload id that is a non-empty string naming an
active task reassigns that task's `assigned_agent` to the message's to-agent
and appends the message to the task's message log; a non-empty string id not
in the active set is silently ignored — state unchanged, no diagnostic; a
missing id (which defaults to `""`), an empty-string id, or a non-string id
leaves the state unchanged and emits the invalid-task-id diagnostic. -/
theorem c8_handoff_amended (st : OrchState) (msg : AgentMessage) :
    (∀ s t, msg.content.lookup "task_id" = some (PyVal.str s) → s.isEmpty = false →
      alookup st.active_tasks s = some t →
      handle_handoff st msg = (handoffApply st msg s t, false)) ∧
    (∀ s, msg.content.lookup "task_id" = some (PyVal.str s) → s.isEmpty = false →
      alookup st.active_tasks s = none → handle_handoff st msg = (st, false)) ∧
    (∀ s, msg.content.lookup "task_id" = some (PyVal.str s) → s.isEmpty = true →
      handle_handoff st msg = (st, true)) ∧
    (msg.content.lookup "task_id" = none → handle_handoff st msg = (st, true)) ∧
    (msg.content.lookup "task_id" = some PyVal.other → handle_handoff st msg = (st, true)) := by
  refine ⟨?_, ?_, ?_, ?_, ?_⟩
  · intro s t hid hne hfound
    simp [handle_handoff, handoffApply, hid, hne, hfound]
  · intro s hid hne hmiss
    simp [handle_handoff, hid, hne, hmiss]
  · intro s hid hemp
    simp [handle_handoff, hid, hemp]
  · intro hid
    simp [handle_handoff, hid, show "".isEmpty = true from rfl]
  · intro hid
    simp [handle_handoff, hid, show "".isEmpty = true from rfl]

/-- The active set for the C8 witness, holding a task with id `"zz"`. -/
def c8st : OrchState :=
  { active_tasks := [("zz", mkTask "zz" "ship it" "feature" "low")], completed_tasks := [] }

/-- Witness for the amended C8 at concrete inputs: a hit on id `"zz"`, a
silent miss on the empty active set, and a diagnosed missing id. -/
theorem c8_handoff_amended_witness :
    handle_handoff c8st c8msg =
      (handoffApply c8st c8msg "zz" (mkTask "zz" "ship it" "feature" "low"), false) ∧
    handle_handoff { active_tasks := [], completed_tasks := [] } c8msg =
      ({ active_tasks := [], completed_tasks := [] }, false) ∧
    handle_handoff c8st
      { c8msg with content := [] } = (c8st, true) :=
  ⟨(c8_handoff_amended c8st c8msg).1 "zz" (mkTask "zz" "ship it" "feature" "low")
      rfl rfl rfl,
   (c8_handoff_amended { active_tasks := [], completed_tasks := [] } c8msg).2.1 "zz"
      rfl rfl rfl,
   (c8_handoff_amended c8st { c8msg with content := [] }).2.2.2.1 rfl⟩

/-! ### C9: `decompose_task` -/

theorem alookup_aset_self (l : List (String × Task)) (k : String) (v : Task) :
    alookup (aset l k v) k = some v := by
  induction l with
  | nil => simp [aset, alookup]
  | cons p rest ih =>
    by_cases hk : p.1 = k
    · simp [aset, alookup, hk]
    · simp [aset, alookup, hk, ih]

theorem alookup_aset_ne (l : List (String × Task)) (k k' : String) (v : Task)
    (h : k ≠ k') : alookup (aset l k v) k' = alookup l k' := by
  induction l with
  | nil => simp [aset, alookup, h]
  | cons p rest ih =>
    by_cases hk : p.1 = k
    · simp only [aset, hk, if_pos rfl, alookup]
      rw [if_neg h, if_neg (hk ▸ h)]
    · simp only [aset, if_neg hk, alookup]
      by_cases hk' : p.1 = k'
      · rw [if_pos hk', if_pos hk']
      · rw [if_neg hk', if_neg hk', ih]

theorem strApp_ne (a : String) {b c : String} (h : b ≠ c) : a ++ b ≠ a ++ c := by
  intro he
  apply h
  have hd := congrArg String.data he
  simp only [String.data_append] at hd
  exact String.ext (List.append_cancel_left hd)

/-- The active set after `decompose_task` has inserted the three feature
subtasks. -/
def decomposedState (st : OrchState) (task : Task) : OrchState :=
  { st with
    active_tasks := aset (aset (aset st.active_tasks (archSubtask task).id (archSubtask task)) (implSubtask task).id (implSubtask task)) (testSubtask task).id (testSubtask task) }

theorem decompose_task_feature (st : OrchState) (task : Task)
    (htype : task.type = "feature") :
    decompose_task st task =
      (task.setSubtasks [archSubtask task, implSubtask task, testSubtask task],
       [archSubtask task, implSubtask task, testSubtask task],
       decomposedState st task) := by
  simp only [decompose_task, decomposedState]
  rw [if_pos htype]
  rfl

theorem decompose_task_other (st : OrchState) (task : Task)
    (htype : ¬ task.type = "feature") :
    decompose_task st task = (task.setSubtasks [], [], st) := by
  simp only [decompose_task]
  rw [if_neg htype]
  rfl

/-- C9: for a task of type `"feature"`, `decompose_task` produces exactly the
three subtasks `<id>-arch`, `<id>-impl`, `<id>-test`, chained by
dependencies `impl → arch` and `test → impl`, assigned to the architect,
backend and QA pools respectively; it stores them on the task's `subtasks`
and inserts each into the active set.  For any other type it produces no
subtasks, sets the task's `subtasks` to `[]`, and leaves the active set
unchanged. -/
theorem c9_decompose_feature (st : OrchState) (task : Task) :
    (task.type = "feature" →
      ((decompose_task st task).2.1.map Task.id =
        [task.id ++ "-arch", task.id ++ "-impl", task.id ++ "-test"]) ∧
      ((decompose_task st task).2.1.map Task.dependencies =
        [[], [task.id ++ "-arch"], [task.id ++ "-impl"]]) ∧
      ((decompose_task st task).2.1.map Task.assigned_agent =
        [some .leadArchitect, some .backendMaster, some .qaSentinel]) ∧
      ((decompose_task st task).1.subtasks = (decompose_task st task).2.1) ∧
      (∀ sub ∈ (decompose_task st task).2.1,
        alookup (decompose_task st task).2.2.active_tasks sub.id = some sub)) ∧
    (task.type ≠ "feature" →
      (decompose_task st task).2.1 = [] ∧
      (decompose_task st task).1 = task.setSubtasks [] ∧
      (decompose_task st task).2.2 = st) := by
  constructor
  · intro htype
    have harch : (archSubtask task).id = task.id ++ "-arch" := rfl
    have himpl : (implSubtask task).id = task.id ++ "-impl" := rfl
    have htst : (testSubtask task).id = task.id ++ "-test" := rfl
    have harchimpl : (archSubtask task).id ≠ (implSubtask task).id := by
      rw [harch, himpl]; exact strApp_ne _ (by decide)
    have harchtest : (archSubtask task).id ≠ (testSubtask task).id := by
      rw [harch, htst]; exact strApp_ne _ (by decide)
    have himpltest : (implSubtask task).id ≠ (testSubtask task).id := by
      rw [himpl, htst]; exact strApp_ne _ (by decide)
    rw [decompose_task_feature st task htype]
    refine ⟨?_, ?_, ?_, ?_, ?_⟩
    · simp [archSubtask, implSubtask, testSubtask, Task.id]
    · simp [archSubtask, implSubtask, testSubtask, Task.dependencies]
    · simp [archSubtask, implSubtask, testSubtask, Task.assigned_agent]
    · simp
    · intro sub hsub
      simp only [List.mem_cons, List.not_mem_nil, or_false] at hsub
      simp only [decomposedState]
      rcases hsub with h | h | h
      · rw [h]
        rw [alookup_aset_ne _ _ _ _ harchtest.symm, alookup_aset_ne _ _ _ _ harchimpl.symm,
          alookup_aset_self]
      · rw [h]
        rw [alookup_aset_ne _ _ _ _ himpltest.symm, alookup_aset_self]
      · rw [h]
        rw [alookup_aset_self]
  · intro htype
    rw [decompose_task_other st task htype]
    exact ⟨rfl, rfl, rfl⟩

/-- Witness for C9 at concrete inputs: a `"feature"` task and a `"bugfix"`
task. -/
theorem c9_decompose_feature_witness :
    ((decompose_task { active_tasks := [], completed_tasks := [] }
        (mkTask "f1" "ship search" "feature" "high")).2.1.map Task.id =
      ["f1-arch", "f1-impl", "f1-test"]) ∧
    ((decompose_task { active_tasks := [], completed_tasks := [] }
        (mkTask "f1" "ship search" "feature" "high")).2.1.map Task.dependencies =
      [[], ["f1-arch"], ["f1-impl"]]) ∧
    ((decompose_task { active_tasks := [], completed_tasks := [] }
        (mkTask "b1" "fix crash" "bugfix" "high")).2.1 = []) ∧
    ((decompose_task { active_tasks := [], completed_tasks := [] }
        (mkTask "b1" "fix crash" "bugfix" "high")).2.2 =
      { active_tasks := [], completed_tasks := [] }) :=
  ⟨by
    have h := (c9_decompose_feature { active_tasks := [], completed_tasks := [] }
      (mkTask "f1" "ship search" "feature" "high")).1 rfl
    exact h.1,
   by
    have h := (c9_decompose_feature { active_tasks := [], completed_tasks := [] }
      (mkTask "f1" "ship search" "feature" "high")).1 rfl
    exact h.2.1,
   by
    have h := (c9_decompose_feature { active_tasks := [], completed_tasks := [] }
      (mkTask "b1" "fix crash" "bugfix" "high")).2 (by decide)
    exact h.1,
   by
    have h := (c9_decompose_feature { active_tasks := [], completed_tasks := [] }
      (mkTask "b1" "fix crash" "bugfix" "high")).2 (by decide)
    exact h.2.2⟩

/-! ### C5: routing claims -/

/-- C5 counterexample: the spec's first rule group names the keyword
`architecture`, but the source matches the substring `architect`
(orchestrator.py line 230).  On the description `"architect an api"` —
which contains `architect` but not `architecture` — the spec's ordered
rules route to the backend pool via `api`, while `assign_agent` routes to
the architect pool, so `assign_agent` does not implement the spec's rule
list. -/
theorem c5_routing_counterexample :
    ¬ (∀ t : Task, assign_agent t = routeByRules specRules t) := by
  intro h
  have hd := h (mkTask "x" "architect an api" "feature" "medium")
  have h1 : assign_agent (mkTask "x" "architect an api" "feature" "medium") =
      AgentType.leadArchitect := by decide
  have h2 : routeByRules specRules (mkTask "x" "architect an api" "feature" "medium") =
      AgentType.backendMaster := by decide
  rw [h1, h2] at hd
  cases hd

/-- C5 amended: `assign_agent` implements exactly the first-match-wins
ordered rule table whose first group's keyword is `architect` (a prefix of
`architecture`; all other groups and the type fallback are as the spec
states), and the four scenario routings hold: "Design the system
architecture" → architect pool, "Implement REST API endpoint" → backend
pool, a keyword-free description with type "bugfix" → QA pool, and an empty
description with type "unknown" → architect pool. -/
theorem c5_routing_amended :
    (∀ t : Task, assign_agent t = routeByRules sourceRules t) ∧
    assign_agent (mkTask "s1" "Design the system architecture" "feature" "medium") =
      AgentType.leadArchitect ∧
    assign_agent (mkTask "s2" "Implement REST API endpoint" "feature" "medium") =
      AgentType.backendMaster ∧
    assign_agent (mkTask "s3" "Update the changelog" "bugfix" "medium") =
      AgentType.qaSentinel ∧
    assign_agent (mkTask "s4" "" "unknown" "medium") = AgentType.leadArchitect := by
  refine ⟨?_, by decide, by decide, by decide, by decide⟩
  intro t
  unfold assign_agent routeByRules sourceRules
  cases h1 : anyKeyword (strLower t.description)
      ["architect", "design", "pattern", "structure"] <;>
  cases h2 : anyKeyword (strLower t.description)
      ["api", "endpoint", "database", "backend", "repository"] <;>
  cases h3 : anyKeyword (strLower t.description) ["cli", "command", "terminal"] <;>
  cases h4 : anyKeyword (strLower t.description)
      ["deploy", "docker", "kubernetes", "cicd", "infrastructure"] <;>
  cases h5 : anyKeyword (strLower t.description) ["integration", "webhook", "mcp", "external"] <;>
  cases h6 : anyKeyword (strLower t.description) ["test", "qa", "quality", "review"] <;>
  simp [List.find?, h1, h2, h3, h4, h5, h6]

/-! ### C6: the disabled-orchestration branch of `execute_parallel`
(lines 442-448): `for task in tasks: results.append(await
self.execute_task_async(task))`.  Each loop iteration runs to completion
before the next begins, so the execution trace of the branch is the
alternating start/finish event sequence below.  The branch is entered
before the semaphore is even created, so `max_parallel` plays no part in
it. -/

/-- Observable events of the sequential loop: a task's execution starting
(`execute_task_async` entered) and finishing (returned or raised). -/
inductive SeqEvent where
  | start (id : String)
  | finish (id : String)
deriving DecidableEq, Repr

/-- The disabled-orchestration branch: runs `execute_task_async` on each
task in input order, threading the shared `completed_tasks` set, collecting
results, and stopping with the propagated exception when a handler raises
(the re-`raise` of line 429 aborts the `for` loop).  Returns the event
trace, the final completed set, and the collected results or the escaped
exception. -/
def run_sequential (batch : List (Task × HandlerOutcome)) (completed : List String)
    (tnow : String) :
    List SeqEvent × List String × Except String (List ResultDict) :=
  match batch with
  | [] => ([], completed, .ok [])
  | (t, o) :: rest =>
    match execute_task_async t o tnow tnow completed with
    | (_, comp', .error m) => ([.start t.id, .finish t.id], comp', .error m)
    | (_, comp', .ok r) =>
      let tail := run_sequential rest comp' tnow
      (.start t.id :: .finish t.id :: tail.1, tail.2.1,
        match tail.2.2 with
        | .ok rs => .ok (r :: rs)
        | .error m => .error m)

/-- The canonical strictly-sequential trace of a batch prefix. -/
def seqTrace : List (Task × HandlerOutcome) → List SeqEvent
  | [] => []
  | (t, _) :: rest => .start t.id :: .finish t.id :: seqTrace rest

def isStartEv : SeqEvent → Bool
  | .start _ => true
  | .finish _ => false

theorem run_sequential_cons_ok (t : Task) (r : ResultDict)
    (rest : List (Task × HandlerOutcome)) (c : List String) (tn : String) :
    run_sequential ((t, .ok r) :: rest) c tn =
      (SeqEvent.start t.id :: SeqEvent.finish t.id :: (run_sequential rest (t.id :: c) tn).1,
       (run_sequential rest (t.id :: c) tn).2.1,
       match (run_sequential rest (t.id :: c) tn).2.2 with
       | .ok rs => .ok (r :: rs)
       | .error m => .error m) := rfl

theorem run_sequential_cons_raise (t : Task) (m : String)
    (rest : List (Task × HandlerOutcome)) (c : List String) (tn : String) :
    run_sequential ((t, .raise m) :: rest) c tn =
      ([SeqEvent.start t.id, SeqEvent.finish t.id], c, .error m) := rfl

theorem seqTrace_get? (xs : List (Task × HandlerOutcome)) (i : Nat) (t : Task)
    (o : HandlerOutcome) (h : xs.get? i = some (t, o)) :
    (seqTrace xs).get? (2 * i) = some (.start t.id) ∧
    (seqTrace xs).get? (2 * i + 1) = some (.finish t.id) := by
  induction xs generalizing i with
  | nil => cases h
  | cons p rest ih =>
    obtain ⟨t', o'⟩ := p
    cases i with
    | zero =>
      cases Option.some.inj h
      exact ⟨rfl, rfl⟩
    | succ j =>
      have hj := ih j h
      have h2 : 2 * (j + 1) = 2 * j + 1 + 1 := by omega
      rw [h2]
      exact ⟨hj.1, hj.2⟩

theorem take_get? {α : Type} (l : List α) (n i : Nat) (h : i < n) :
    (l.take n).get? i = l.get? i := by
  induction l generalizing n i with
  | nil => simp
  | cons x xs ih =>
    cases n with
    | zero => omega
    | succ m =>
      cases i with
      | zero => rfl
      | succ j => simpa using ih m j (by omega)

theorem seqTrace_balanced (xs : List (Task × HandlerOutcome)) (m : Nat) :
    ((seqTrace xs).take m).countP isStartEv ≤
      ((seqTrace xs).take m).countP (fun e => !isStartEv e) + 1 := by
  induction xs generalizing m with
  | nil => simp [seqTrace]
  | cons p rest ih =>
    obtain ⟨t, o⟩ := p
    match m with
    | 0 => simp
    | 1 => simp [seqTrace, isStartEv]
    | Nat.succ (Nat.succ k) =>
      have := ih k
      have e1 : isStartEv (SeqEvent.start t.id) = true := rfl
      have e2 : isStartEv (SeqEvent.finish t.id) = false := rfl
      simp only [seqTrace, List.take_succ_cons, List.countP_cons]
      simp only [e1, e2, Bool.not_true, Bool.not_false, if_true, if_false]
      simp only [show (false = true) = False by simp, show (true = true) = True by simp,
        if_true, if_false]
      omega

/-- C6: with orchestration disabled, `execute_parallel` executes tasks
strictly sequentially in input order: some prefix of length `k` of the batch
runs (all of it when no handler raises, since a raise aborts the loop), the
event trace is exactly start/finish of task 0, then start/finish of task 1,
and so on — task `i`'s finish (position `2i+1`) precedes task `i+1`'s start
(position `2i+2`) — and no prefix of the trace ever has two tasks open at
once; the branch never consults `max_parallel`. -/
theorem c6_sequential_when_disabled (batch : List (Task × HandlerOutcome))
    (completed : List String) (tnow : String) :
    ∃ k, k ≤ batch.length ∧
      (run_sequential batch completed tnow).1 = seqTrace (batch.take k) ∧
      ((∀ p ∈ batch, ∃ r, p.2 = HandlerOutcome.ok r) → k = batch.length) ∧
      (∀ i t o, i < k → batch.get? i = some (t, o) →
        (run_sequential batch completed tnow).1.get? (2 * i) = some (.start t.id) ∧
        (run_sequential batch completed tnow).1.get? (2 * i + 1) = some (.finish t.id)) ∧
      (∀ m, (((run_sequential batch completed tnow).1.take m).countP isStartEv ≤
        ((run_sequential batch completed tnow).1.take m).countP (fun e => !isStartEv e) + 1)) := by
  have main : ∃ k, k ≤ batch.length ∧
      (run_sequential batch completed tnow).1 = seqTrace (batch.take k) ∧
      ((∀ p ∈ batch, ∃ r, p.2 = HandlerOutcome.ok r) → k = batch.length) := by
    induction batch generalizing completed with
    | nil => exact ⟨0, Nat.le_refl 0, rfl, fun _ => rfl⟩
    | cons p rest ih =>
      obtain ⟨t, o⟩ := p
      cases o with
      | raise m =>
        refine ⟨1, by simp, by rw [run_sequential_cons_raise]; rfl, ?_⟩
        intro hall
        obtain ⟨r, hr⟩ := hall (t, .raise m) (List.mem_cons_self _ _)
        cases hr
      | ok r =>
        obtain ⟨k, hk, htr, hfull⟩ := ih (t.id :: completed)
        refine ⟨k + 1, by simpa using hk, ?_, ?_⟩
        · rw [run_sequential_cons_ok]
          simp only [List.take_succ_cons, seqTrace]
          rw [htr]
        · intro hall
          have := hfull (fun q hq => hall q (List.mem_cons_of_mem _ hq))
          simp [this]
  obtain ⟨k, hk, htr, hfull⟩ := main
  refine ⟨k, hk, htr, hfull, ?_, ?_⟩
  · intro i t o hik hget
    rw [htr]
    exact seqTrace_get? (batch.take k) i t o (by rw [take_get? batch k i hik]; exact hget)
  · intro m
    rw [htr]
    exact seqTrace_balanced (batch.take k) m

/-- Tasks for the C6 witness batch. -/
def c6taskA : Task := mkTask "s1" "write the code" "feature" "medium"

def c6taskB : Task := mkTask "s2" "hand inspection" "feature" "medium"

/-- Witness for C6 at a concrete two-task batch with a failing first task:
applying the theorem yields the existence statement at that batch. -/
theorem c6_sequential_when_disabled_witness :
    ∃ k, k ≤ ([(c6taskA, HandlerOutcome.raise "boom"),
        (c6taskB, HandlerOutcome.ok defaultResult)] :
        List (Task × HandlerOutcome)).length ∧
      (run_sequential [(c6taskA, .raise "boom"), (c6taskB, .ok defaultResult)] [] "t0").1 =
        seqTrace (([(c6taskA, .raise "boom"), (c6taskB, .ok defaultResult)] :
          List (Task × HandlerOutcome)).take k) ∧
      ((∀ p ∈ ([(c6taskA, .raise "boom"), (c6taskB, .ok defaultResult)] :
          List (Task × HandlerOutcome)), ∃ r, p.2 = HandlerOutcome.ok r) →
        k = ([(c6taskA, .raise "boom"), (c6taskB, .ok defaultResult)] :
          List (Task × HandlerOutcome)).length) ∧
      (∀ i t o, i < k →
        ([(c6taskA, .raise "boom"), (c6taskB, .ok defaultResult)] :
          List (Task × HandlerOutcome)).get? i = some (t, o) →
        (run_sequential [(c6taskA, .raise "boom"), (c6taskB, .ok defaultResult)] []
          "t0").1.get? (2 * i) = some (.start t.id) ∧
        (run_sequential [(c6taskA, .raise "boom"), (c6taskB, .ok defaultResult)] []
          "t0").1.get? (2 * i + 1) = some (.finish t.id)) ∧
      (∀ m, (((run_sequential [(c6taskA, .raise "boom"), (c6taskB, .ok defaultResult)] []
          "t0").1.take m).countP isStartEv ≤
        ((run_sequential [(c6taskA, .raise "boom"), (c6taskB, .ok defaultResult)] []
          "t0").1.take m).countP (fun e => !isStartEv e) + 1)) :=
  c6_sequential_when_disabled [(c6taskA, .raise "boom"), (c6taskB, .ok defaultResult)] [] "t0"

end Forge
